import Mathlib

/-!
Verification development for the news-tracker ingestion / dedup / embedding /
ranking pipeline (news_database.py, news_scraper.py, embedding_service.py,
as found under src/src of the repository; the top-level copies differ only in
ways noted at the relevant definitions).

Modelling conventions of the shallow embedding:
- the SQLite articles table becomes a list of rows (insertion order = rowid
  order);
- timestamps become integers (seconds); a NULL published_date is an
  Option that is none;
- md5 digests: the stored content_hash is modelled by the concatenated input
  string itself.  Equal inputs give equal md5 digests, so every collision
  exhibited in the model is a genuine collision of the code; distinct inputs
  give distinct digests with overwhelming probability, matching the
  cryptographic-hash assumption of the specification;
- numpy float vectors become rational vectors on the ranking side and real
  vectors for the cosine-similarity analysis; the sentence-transformer
  embedding model is an injected parameter (Article to Option Vec); a raised
  exception inside the embedder is modelled as none;
- a Python function that can raise models its result as an Option; none
  means the exception propagated to the caller with the store unchanged
  (every modelled raise happens before the INSERT commits);
- Python list.sort(key, reverse=True) is a stable sort; it is modelled with
  insertion sort (stable) over the relation "left key is at least right key".
-/

namespace NewsTracker

/-! ## Stable sorting

Python list.sort is stable.  Mathlib List.insertionSort r processes the list
from the right and inserts each earlier element in front of the first later
element b with r a b, so for a total preorder r it is exactly the stable sort:
earlier elements stay in front of later elements with equivalent keys.  The
lemma below captures both sortedness and stability at once. -/

/-- Relation satisfied by consecutive outputs of a stable sort: the sort
relation r holds, and on ties (r both ways) the original order D holds. -/
def StableRel (r D : α → α → Prop) (x y : α) : Prop :=
  r x y ∧ (r y x → D x y)

theorem pairwise_orderedInsert_stable {r D : α → α → Prop} [DecidableRel r]
    (htot : ∀ a b, r a b ∨ r b a) (htrans : ∀ a b c, r a b → r b c → r a c)
    (a : α) : ∀ s : List α, s.Pairwise (StableRel r D) → (∀ x ∈ s, D a x) →
    (List.orderedInsert r a s).Pairwise (StableRel r D) := by
  intro s
  induction s with
  | nil =>
    intro _ _
    simp [List.orderedInsert]
  | cons b bs ih =>
    intro hs ha
    have hs' := List.pairwise_cons.mp hs
    simp only [List.orderedInsert]
    by_cases hab : r a b
    · rw [if_pos hab]
      refine List.Pairwise.cons ?_ hs
      intro x hx
      rcases List.mem_cons.mp hx with heq | hxbs
      · subst heq
        exact ⟨hab, fun _ => ha x (List.mem_cons_self x bs)⟩
      · exact ⟨htrans a b x hab (hs'.1 x hxbs).1,
          fun _ => ha x (List.mem_cons_of_mem b hxbs)⟩
    · rw [if_neg hab]
      refine List.Pairwise.cons ?_
        (ih hs'.2 (fun x hx => ha x (List.mem_cons_of_mem b hx)))
      intro x hx
      have hx' : x = a ∨ x ∈ bs := by
        have := (List.perm_orderedInsert r a bs).mem_iff.mp hx
        simpa using this
      rcases hx' with heq | hxbs
      · subst heq
        exact ⟨(htot x b).resolve_left hab, fun hab2 => absurd hab2 hab⟩
      · exact hs'.1 x hxbs

theorem pairwise_insertionSort_stable {r D : α → α → Prop} [DecidableRel r]
    (htot : ∀ a b, r a b ∨ r b a) (htrans : ∀ a b c, r a b → r b c → r a c) :
    ∀ l : List α, l.Pairwise D →
    (List.insertionSort r l).Pairwise (StableRel r D) := by
  intro l
  induction l with
  | nil =>
    intro _
    simp [List.insertionSort]
  | cons a l ih =>
    intro hD
    have hD' := List.pairwise_cons.mp hD
    simp only [List.insertionSort]
    refine pairwise_orderedInsert_stable htot htrans a _ (ih hD'.2) ?_
    intro x hx
    exact hD'.1 x ((List.perm_insertionSort r l).mem_iff.mp hx)

/-! ## Data model

Embedding vectors on the ranking side; numpy float arrays are modelled over
the rationals (Python floats are dyadic rationals, and the ranking code only
adds, multiplies and compares them). -/

/-- Embedding vector as stored and compared by the ranking code. -/
abbrev Vec := List ℚ

/-- NewsArticle dataclass of news_database.py.  The fields content_hash and
embedding are set by add_article and modelled on the stored row instead; the
is_read and user_rating fields default and are read by no modelled operation,
so they are omitted. -/
structure Article where
  title : String
  url : String
  description : String
  content : String
  published : Option Int
  source : String
  category : Option String
deriving DecidableEq, Repr

/-- Row of the articles table (relevant columns).  The list of rows is kept in
insertion order, which is rowid order. -/
structure Row where
  title : String
  url : String
  description : String
  content : String
  published : Option Int
  source : String
  category : Option String
  content_hash : String
  embedding : Option Vec
deriving DecidableEq, Repr

/-- Row of the user_preferences table for one user. -/
structure Pref where
  description : String
  weight : ℚ
  embedding : Option Vec
deriving DecidableEq, Repr

/-! ## Deduplication and insertion (news_database.py, add_article) -/

/-- Input of the md5 content fingerprint, news_database.py line 134:
an f-string concatenation of title, url and description with no separator.
The md5 digest itself is modelled by this string (equal inputs give equal
digests, so collisions of this string are collisions of the code). -/
def content_for_hash (a : Article) : String :=
  a.title ++ a.url ++ a.description

/-- Stored row produced by a successful INSERT in add_article. -/
def rowOf (a : Article) (v : Vec) : Row :=
  { title := a.title, url := a.url, description := a.description,
    content := a.content, published := a.published, source := a.source,
    category := a.category, content_hash := content_for_hash a,
    embedding := some v }

/-- UNIQUE-constraint check of the INSERT: the url column and the
content_hash column each carry a UNIQUE constraint, so the insert raises
IntegrityError exactly when some stored row matches either one. -/
def hasConflict (db : List Row) (a : Article) : Bool :=
  db.any fun r => decide (r.url = a.url) || decide (r.content_hash = content_for_hash a)

/-- Model of NewsDatabase.add_article (news_database.py lines 131-167).  The
content hash is computed, then the embedding is generated (a raised exception
there propagates: result none, store unchanged), then the INSERT runs; an
IntegrityError from the UNIQUE constraints is caught and reported as false. -/
def add_article (embed : Article → Option Vec) (db : List Row) (a : Article) :
    Option (List Row × Bool) :=
  match embed a with
  | none => none
  | some v =>
    if hasConflict db a then some (db, false)
    else some (db ++ [rowOf a v], true)

/-! ## Queries (news_database.py) -/

/-- Comparison of nullable published dates as ORDER BY published_date DESC
sorts them: in SQLite NULL is smaller than every non-NULL value, so NULL rows
come last under DESC. -/
def dateLE : Option Int → Option Int → Prop
  | none, _ => True
  | some _, none => False
  | some a, some b => a ≤ b

instance decDateLE : ∀ x y, Decidable (dateLE x y)
  | none, _ => isTrue trivial
  | some _, none => isFalse (fun h => h)
  | some a, some b => inferInstanceAs (Decidable (a ≤ b))

/-- Row r may precede row s in ORDER BY published_date DESC output. -/
def rDate (r s : Row) : Prop :=
  dateLE s.published r.published

instance decRDate : DecidableRel rDate :=
  fun r s => inferInstanceAs (Decidable (dateLE s.published r.published))

/-- Model of get_latest_articles (lines 169-194): ORDER BY published_date
DESC LIMIT.  Ties keep rowid order (stable sort).  The code projects the row
to a NewsArticle; the model returns the full row, which loses nothing the
claims mention. -/
def get_latest_articles (db : List Row) (limit : Nat) : List Row :=
  (List.insertionSort rDate db).take limit

/-- Model of get_articles_with_embeddings (lines 255-289): WHERE embedding IS
NOT NULL ORDER BY published_date DESC LIMIT. -/
def get_articles_with_embeddings (db : List Row) (limit : Nat) : List Row :=
  (List.insertionSort rDate (db.filter fun r => r.embedding.isSome)).take limit

/-- Preferences with a stored embedding, as selected at lines 324-327
(WHERE user_id = ? AND embedding IS NOT NULL). -/
def embPrefs (prefs : List Pref) : List (Vec × ℚ) :=
  prefs.filterMap fun p => p.embedding.map fun v => (v, p.weight)

/-- Score of one candidate vector, lines 343-349: the sum over the embedded
preferences of similarity times weight. -/
def score (sim : Vec → Vec → ℚ) (eps : List (Vec × ℚ)) (v : Vec) : ℚ :=
  (eps.map fun p => sim v p.1 * p.2).sum

/-- Scored candidate list, lines 338-351: candidates without an embedding are
skipped, every other candidate is paired with its score. -/
def scoreCandidates (sim : Vec → Vec → ℚ) (eps : List (Vec × ℚ))
    (pool : List Row) : List (Row × ℚ) :=
  pool.filterMap fun r => r.embedding.map fun v => (r, score sim eps v)

/-- Pair p may precede pair q after list.sort(key score, reverse=True). -/
def rScore (p q : Row × ℚ) : Prop :=
  q.2 ≤ p.2

instance decRScore : DecidableRel rScore :=
  fun p q => inferInstanceAs (Decidable (q.2 ≤ p.2))

/-- Model of get_personalized_articles (lines 313-356).  The user argument is
none when get_user_id finds no such user, otherwise the list of preference
rows of that user.  sim is the injected
EmbeddingService.calculate_similarity.  Python list.sort with reverse=True is
stable, which the insertion sort models. -/
def get_personalized_articles (sim : Vec → Vec → ℚ) (user : Option (List Pref))
    (db : List Row) (limit : Nat) : List (Row × ℚ) :=
  match user with
  | none => (get_latest_articles db limit).map fun r => (r, (0 : ℚ))
  | some prefs =>
    let eps := embPrefs prefs
    if eps = [] then (get_latest_articles db limit).map fun r => (r, (0 : ℚ))
    else
      (List.insertionSort rScore
        (scoreCandidates sim eps (get_articles_with_embeddings db 200))).take limit

/-! ## Retention purge (news_database.py, delete_old_articles) -/

/-- Purge predicate of lines 431-441: published_date < cutoff OR
published_date IS NULL. -/
def purgeable (cutoff : Int) (r : Row) : Bool :=
  match r.published with
  | none => true
  | some d => decide (d < cutoff)

/-- Model of delete_old_articles (lines 420-450): cutoff is now minus the
retention window (days in seconds); rows matching the purge predicate are
counted and then deleted, and the count is returned. -/
def delete_old_articles (now : Int) (days : Int) (db : List Row) :
    List Row × Nat :=
  let cutoff := now - days * 86400
  ((db.filter fun r => !purgeable cutoff r),
   (db.filter fun r => purgeable cutoff r).length)

/-! ## Feed scraping (news_scraper.py) -/

/-- Model of str.strip(): leading and trailing whitespace removed. -/
def pyStrip (s : String) : String :=
  (((s.toList.dropWhile fun c => c.isWhitespace).reverse.dropWhile
    fun c => c.isWhitespace).reverse).asString

/-- Tag removal of _clean_html, the substitution of the regular expression
matching a left angle bracket, one or more characters other than a right
angle bracket, and a right angle bracket, by the empty string.  The scan
keeps an opening bracket whose tag body would be empty or unclosed, exactly
as the regular expression leaves it unmatched. -/
def stripTags : List Char → List Char
  | [] => []
  | c :: cs =>
    if c = '<' then
      let body := cs.takeWhile fun d => !(decide (d = '>'))
      if h : body.length ≠ 0 ∧ body.length < cs.length then
        stripTags (cs.drop (body.length + 1))
      else c :: stripTags cs
    else c :: stripTags cs
termination_by l => l.length
decreasing_by
  · simp only [List.length_cons, List.length_drop]
    omega
  · simp
  · simp

/-- Model of NewsScraper._clean_html (lines 147-164): strip tags, decode the
six handled HTML entities, collapse whitespace runs to single blanks and trim. -/
def clean_html (s : String) : String :=
  if s = "" then ""
  else
    let t1 := (stripTags s.toList).asString
    let t2 := (((((t1.replace "&amp;" "&").replace "&lt;" "<").replace
      "&gt;" ">").replace "&quot;" "\"").replace "&#39;" "\x27").replace
      "&nbsp;" " "
    pyStrip (List.intercalate [' ']
      ((t2.toList.splitOnP fun c => c.isWhitespace).filter
        fun w => !w.isEmpty)).asString

/-- Feed entry as _parse_entry reads it: optional title and link, optional
summary and description, the published and updated timestamps in case they
are present and convertible (the try around the datetime call maps a
ValueError or TypeError back to an absent date), the tag terms, and the
optional category attribute. -/
structure Entry where
  title : Option String
  link : Option String
  summary : Option String
  description : Option String
  published_parsed : Option Int
  updated_parsed : Option Int
  tags : List String
  category : Option String
deriving DecidableEq, Repr

/-- Title extraction, lines 88-90. -/
def entryTitle (e : Entry) : String :=
  pyStrip (e.title.getD "")

/-- Link extraction, lines 93-95. -/
def entryUrl (e : Entry) : String :=
  pyStrip (e.link.getD "")

/-- Description extraction and cleaning, lines 98-105: summary if present,
else description, else the empty string, then _clean_html. -/
def entryDescription (e : Entry) : String :=
  clean_html (match e.summary with
    | some s => s
    | none => e.description.getD "")

/-- Published date extraction, lines 108-124: published_parsed, else
updated_parsed, else the current UTC time.  The result is never absent. -/
def entryPublished (now : Int) (e : Entry) : Int :=
  match e.published_parsed with
  | some t => t
  | none =>
    match e.updated_parsed with
    | some t => t
    | none => now

/-- Category extraction, lines 127-132: term of the first tag if any tags
exist, else the category attribute, else none. -/
def entryCategory (e : Entry) : Option String :=
  match e.tags with
  | t :: _ => some (pyStrip t)
  | [] =>
    match e.category with
    | some c => some (pyStrip c)
    | none => none

/-- Model of the NewsArticle constructor call at news_scraper.py lines
134-141.  The NewsArticle dataclass (news_database.py lines 13-25) declares
content as a field with no default value, and this call site passes every
field except content, so the generated init raises TypeError for every entry;
the handler at line 143 catches it, logs, and returns None.  The call
therefore never yields an article, whatever the extracted fields are. -/
def scraperArticleCtor (_title _url _description : String) (_published : Int)
    (_source : String) (_category : Option String) : Option Article :=
  none

/-- Model of NewsScraper._parse_entry (lines 84-145): empty title or empty
link yield None; otherwise the extracted fields are handed to the dataclass
constructor call, which always fails (see scraperArticleCtor). -/
def parse_entry (now : Int) (source : String) (e : Entry) : Option Article :=
  if entryTitle e = "" then none
  else if entryUrl e = "" then none
  else
    scraperArticleCtor (entryTitle e) (entryUrl e) (entryDescription e)
      (entryPublished now e) source (entryCategory e)

/-- Evident intent of _parse_entry, with the constructor call repaired by
supplying the missing content argument (the top-level variant of the
dataclass has no content field at all, and nothing the scraper stores reads
it, so it is supplied empty).  Used to state what the parser was written to
produce. -/
def parse_entry_fixed (now : Int) (source : String) (e : Entry) :
    Option Article :=
  if entryTitle e = "" then none
  else if entryUrl e = "" then none
  else
    some { title := entryTitle e, url := entryUrl e,
           description := entryDescription e, content := "",
           published := some (entryPublished now e), source := source,
           category := entryCategory e }

/-- Entry loop of scrape_feed (lines 71-76) threading the store: each parsed
article is handed to add_article and successful inserts are counted.  The
third component records whether the loop ran to completion; false models an
exception escaping the loop (in the code, a raised embedding failure), which
scrape_feed re-raises after its logging handler (lines 80-82), leaving the
partial store (each INSERT had already committed). -/
def processEntries (embed : Article → Option Vec) (now : Int) (source : String) :
    List Row → List Entry → List Row × Nat × Bool
  | db, [] => (db, 0, true)
  | db, e :: es =>
    match parse_entry now source e with
    | none => processEntries embed now source db es
    | some a =>
      match add_article embed db a with
      | none => (db, 0, false)
      | some (db1, added) =>
        let rest := processEntries embed now source db1 es
        (rest.1, (if added then 1 else 0) + rest.2.1, rest.2.2)

/-- One configured source: its feed name together with the fetched and
feedparser-parsed payload; error models an exception raised while fetching
or parsing the feed, before any entry is processed. -/
abbrev Source := String × Except Unit (List Entry)

/-- Model of scrape_feed (lines 60-82) for one source. -/
def scrape_feed (embed : Article → Option Vec) (now : Int) (db : List Row)
    (s : Source) : List Row × Nat × Bool :=
  match s.2 with
  | Except.error _ => (db, 0, false)
  | Except.ok es => processEntries embed now s.1 db es

/-- Source loop of scrape_all_feeds (lines 46-58): every source is processed
in order; a source whose scrape raised has 0 recorded for its name, a
completed source has its new-article count recorded, and in both cases the
loop continues with the store the source left behind. -/
def scrapeSources (embed : Article → Option Vec) (now : Int) :
    List Row → List Source → List Row × List (String × Nat)
  | db, [] => (db, [])
  | db, s :: ss =>
    let step := scrape_feed embed now db s
    let rest := scrapeSources embed now step.1 ss
    (rest.1, (s.1, if step.2.2 then step.2.1 else 0) :: rest.2)

/-- Model of scrape_all_feeds (lines 36-58): articles older than 3 days are
purged first, then every configured feed is scraped; the per-source
new-article counts are returned together with the final store. -/
def scrape_all_feeds (embed : Article → Option Vec) (now : Int)
    (db : List Row) (sources : List Source) :
    List Row × List (String × Nat) :=
  scrapeSources embed now (delete_old_articles now 3 db).1 sources

/-! ## Cosine similarity (embedding_service.py, calculate_similarity)

The float arithmetic of numpy and sklearn is idealised over the reals. -/

/-- Dot product of two float vectors over the reals; on unequal lengths the
excess entries drop out, matching the broadcast of equal-dimension arrays. -/
def dotR (a b : List ℝ) : ℝ :=
  (List.zipWith (fun x y => x * y) a b).sum

/-- Euclidean norm of a row as sklearn normalize computes it. -/
noncomputable def normR (v : List ℝ) : ℝ :=
  Real.sqrt (dotR v v)

/-- Division-safe norm: sklearn normalize replaces a zero row norm by 1
before dividing, so a zero row stays zero and nothing divides by zero. -/
noncomputable def safeNorm (v : List ℝ) : ℝ :=
  if normR v = 0 then 1 else normR v

/-- Model of EmbeddingService.calculate_similarity (lines 40-42), which
delegates to sklearn cosine_similarity: each input row is divided by its
division-safe norm and the rows are dotted, which equals the dot product
divided by the product of the safe norms. -/
noncomputable def calculate_similarity (a b : List ℝ) : ℝ :=
  dotR a b / (safeNorm a * safeNorm b)

theorem dotR_eq_sum (a : List ℝ) : ∀ b : List ℝ,
    dotR a b = ∑ i ∈ Finset.range (min a.length b.length),
      a.getD i 0 * b.getD i 0 := by
  induction a with
  | nil =>
    intro b
    simp [dotR]
  | cons x xs ih =>
    intro b
    cases b with
    | nil => simp [dotR]
    | cons y ys =>
      have hmin : min (x :: xs).length (y :: ys).length =
          min xs.length ys.length + 1 := by
        simp [Nat.succ_min_succ]
      rw [hmin, Finset.sum_range_succ']
      simp only [List.getD_cons_succ, List.getD_cons_zero]
      have : dotR (x :: xs) (y :: ys) = x * y + dotR xs ys := by
        simp [dotR]
      rw [this, ih ys]
      ring

theorem dotR_self_nonneg (v : List ℝ) : 0 ≤ dotR v v := by
  rw [dotR_eq_sum]
  exact Finset.sum_nonneg fun i _ => mul_self_nonneg _

theorem dotR_self_entries_eq_zero {v : List ℝ} (h : dotR v v = 0) :
    ∀ i < v.length, v.getD i 0 = 0 := by
  rw [dotR_eq_sum, min_self] at h
  intro i hi
  have h0 := (Finset.sum_eq_zero_iff_of_nonneg
    (fun j _ => mul_self_nonneg (v.getD j 0))).mp h i (Finset.mem_range.mpr hi)
  exact mul_self_eq_zero.mp h0

theorem dotR_eq_zero_of_left {a : List ℝ} (h : ∀ i < a.length, a.getD i 0 = 0)
    (b : List ℝ) : dotR a b = 0 := by
  rw [dotR_eq_sum]
  refine Finset.sum_eq_zero fun i hi => ?_
  rw [h i (lt_of_lt_of_le (Finset.mem_range.mp hi) (min_le_left _ _)), zero_mul]

theorem dotR_eq_zero_of_right {b : List ℝ} (h : ∀ i < b.length, b.getD i 0 = 0)
    (a : List ℝ) : dotR a b = 0 := by
  rw [dotR_eq_sum]
  refine Finset.sum_eq_zero fun i hi => ?_
  rw [h i (lt_of_lt_of_le (Finset.mem_range.mp hi) (min_le_right _ _)), mul_zero]

theorem dotR_sq_le (a b : List ℝ) :
    dotR a b ^ 2 ≤ dotR a a * dotR b b := by
  rw [dotR_eq_sum a b, dotR_eq_sum a a, dotR_eq_sum b b, min_self, min_self]
  simp only [← pow_two]
  have hcs := Finset.sum_mul_sq_le_sq_mul_sq
    (Finset.range (min a.length b.length))
    (fun i => a.getD i 0) (fun i => b.getD i 0)
  have hfa : (∑ i ∈ Finset.range (min a.length b.length), a.getD i 0 ^ 2) ≤
      ∑ i ∈ Finset.range a.length, a.getD i 0 ^ 2 := by
    refine Finset.sum_le_sum_of_subset_of_nonneg ?_ fun i _ _ => sq_nonneg _
    exact Finset.range_subset.mpr (min_le_left _ _)
  have hfb : (∑ i ∈ Finset.range (min a.length b.length), b.getD i 0 ^ 2) ≤
      ∑ i ∈ Finset.range b.length, b.getD i 0 ^ 2 := by
    refine Finset.sum_le_sum_of_subset_of_nonneg ?_ fun i _ _ => sq_nonneg _
    exact Finset.range_subset.mpr (min_le_right _ _)
  refine le_trans hcs ?_
  exact mul_le_mul hfa hfb (Finset.sum_nonneg fun i _ => sq_nonneg _)
    (le_trans (Finset.sum_nonneg fun i _ => sq_nonneg _) hfa)

theorem normR_eq_zero_iff (v : List ℝ) : normR v = 0 ↔ dotR v v = 0 := by
  unfold normR
  rw [Real.sqrt_eq_zero']
  constructor
  · intro h
    exact le_antisymm h (dotR_self_nonneg v)
  · intro h
    exact le_of_eq h

theorem abs_similarity_le_one (a b : List ℝ) :
    |calculate_similarity a b| ≤ 1 := by
  unfold calculate_similarity
  by_cases ha : normR a = 0
  · have hz := dotR_eq_zero_of_left
      (dotR_self_entries_eq_zero ((normR_eq_zero_iff a).mp ha)) b
    rw [hz, zero_div, abs_zero]
    exact zero_le_one
  · by_cases hb : normR b = 0
    · have hz := dotR_eq_zero_of_right
        (dotR_self_entries_eq_zero ((normR_eq_zero_iff b).mp hb)) a
      rw [hz, zero_div, abs_zero]
      exact zero_le_one
    · have hsa : safeNorm a = normR a := if_neg ha
      have hsb : safeNorm b = normR b := if_neg hb
      have hapos : 0 < normR a :=
        lt_of_le_of_ne (Real.sqrt_nonneg _) (Ne.symm ha)
      have hbpos : 0 < normR b :=
        lt_of_le_of_ne (Real.sqrt_nonneg _) (Ne.symm hb)
      rw [hsa, hsb, abs_div, abs_of_pos (mul_pos hapos hbpos),
        div_le_one (mul_pos hapos hbpos)]
      have h1 : |dotR a b| = Real.sqrt (dotR a b ^ 2) :=
        (Real.sqrt_sq_eq_abs _).symm
      rw [h1]
      have h2 : Real.sqrt (dotR a b ^ 2) ≤ Real.sqrt (dotR a a * dotR b b) :=
        Real.sqrt_le_sqrt (dotR_sq_le a b)
      refine le_trans h2 ?_
      rw [Real.sqrt_mul (dotR_self_nonneg a)]
      unfold normR
      exact le_rfl

theorem similarity_self {v : List ℝ} (h : dotR v v ≠ 0) :
    calculate_similarity v v = 1 := by
  have hn : normR v ≠ 0 := fun hc => h ((normR_eq_zero_iff v).mp hc)
  unfold calculate_similarity
  have hs : safeNorm v = normR v := by
    unfold safeNorm
    exact if_neg hn
  rw [hs]
  unfold normR
  rw [Real.mul_self_sqrt (dotR_self_nonneg v)]
  exact div_self h

/-! ## Helper lemmas -/

theorem hasConflict_iff (db : List Row) (a : Article) :
    hasConflict db a = true ↔
    ∃ r ∈ db, r.url = a.url ∨ r.content_hash = content_for_hash a := by
  simp [hasConflict, List.any_eq_true]

theorem add_article_true_elim {embed : Article → Option Vec} {db db1 : List Row}
    {a : Article} (h : add_article embed db a = some (db1, true)) :
    ∃ v, embed a = some v ∧ hasConflict db a = false ∧
      db1 = db ++ [rowOf a v] := by
  cases hemb : embed a with
  | none =>
    simp only [add_article, hemb] at h
    exact absurd h (by simp)
  | some v =>
    simp only [add_article, hemb] at h
    by_cases hc : hasConflict db a = true
    · rw [if_pos hc] at h
      simp at h
    · rw [if_neg hc] at h
      refine ⟨v, rfl, by simpa using hc, ?_⟩
      simpa using h.symm

theorem parse_entry_eq_none (now : Int) (source : String) (e : Entry) :
    parse_entry now source e = none := by
  simp [parse_entry, scraperArticleCtor]

theorem processEntries_noop (embed : Article → Option Vec) (now : Int)
    (source : String) : ∀ (es : List Entry) (db : List Row),
    processEntries embed now source db es = (db, 0, true) := by
  intro es
  induction es with
  | nil =>
    intro db
    rfl
  | cons e es ih =>
    intro db
    unfold processEntries
    rw [parse_entry_eq_none]
    exact ih db

theorem scrapeSources_all_zero (embed : Article → Option Vec) (now : Int) :
    ∀ (ss : List Source) (db : List Row),
    scrapeSources embed now db ss = (db, ss.map fun s => (s.1, 0)) := by
  intro ss
  induction ss with
  | nil =>
    intro db
    rfl
  | cons s ss ih =>
    intro db
    unfold scrapeSources
    cases s with
    | mk name fetch =>
      cases fetch with
      | error u =>
        simp [scrape_feed, ih]
      | ok es =>
        simp [scrape_feed, processEntries_noop, ih]

theorem scrapeSources_keys (embed : Article → Option Vec) (now : Int) :
    ∀ (ss : List Source) (db : List Row),
    ((scrapeSources embed now db ss).2).map Prod.fst = ss.map Prod.fst := by
  intro ss
  induction ss with
  | nil =>
    intro db
    rfl
  | cons s ss ih =>
    intro db
    unfold scrapeSources
    simp only [List.map_cons, List.map]
    rw [ih]

theorem purgeable_eq_false_iff (cutoff : Int) (r : Row) :
    purgeable cutoff r = false ↔ ∃ d, r.published = some d ∧ cutoff ≤ d := by
  unfold purgeable
  cases hp : r.published with
  | none => simp
  | some d => simp [not_lt]

theorem filter_split_length (p : α → Bool) :
    ∀ l : List α, (l.filter p).length + (l.filter fun a => !p a).length
      = l.length := by
  intro l
  induction l with
  | nil => rfl
  | cons a l ih =>
    simp only [List.filter_cons, List.length_cons]
    by_cases h : p a
    · rw [if_pos h, if_neg (by simp [h])]
      simp only [List.length_cons]
      omega
    · rw [if_neg h, if_pos (by simp [h])]
      simp only [List.length_cons]
      omega

theorem pairwise_true : ∀ l : List α, l.Pairwise fun _ _ => True := by
  intro l
  induction l with
  | nil => exact List.Pairwise.nil
  | cons a l ih => exact List.Pairwise.cons (fun _ _ => trivial) ih

theorem pairwise_insertionSort {r : α → α → Prop} [DecidableRel r]
    (htot : ∀ a b, r a b ∨ r b a) (htrans : ∀ a b c, r a b → r b c → r a c)
    (l : List α) : (List.insertionSort r l).Pairwise r :=
  (pairwise_insertionSort_stable htot htrans l (pairwise_true l)).imp
    fun h => h.1

theorem rDate_total (r s : Row) : rDate r s ∨ rDate s r := by
  unfold rDate
  cases hr : r.published
  case' none => cases hs : s.published
  case' some => cases hs : s.published
  all_goals simp [dateLE]
  all_goals omega

theorem rDate_trans (r s t : Row) : rDate r s → rDate s t → rDate r t := by
  unfold rDate
  cases hr : r.published
  case' none => cases hs : s.published
  case' some => cases hs : s.published
  all_goals cases ht : t.published
  all_goals simp [dateLE]
  all_goals omega

theorem rScore_total (p q : Row × ℚ) : rScore p q ∨ rScore q p :=
  (le_total q.2 p.2).imp id id

theorem rScore_trans (p q t : Row × ℚ) :
    rScore p q → rScore q t → rScore p t :=
  fun h1 h2 => le_trans h2 h1

theorem scrapeSources_append (embed : Article → Option Vec) (now : Int) :
    ∀ (xs ys : List Source) (db : List Row),
    scrapeSources embed now db (xs ++ ys) =
      ((scrapeSources embed now (scrapeSources embed now db xs).1 ys).1,
       (scrapeSources embed now db xs).2 ++
         (scrapeSources embed now (scrapeSources embed now db xs).1 ys).2) := by
  intro xs
  induction xs with
  | nil =>
    intro ys db
    simp [scrapeSources]
  | cons p xs ih =>
    intro ys db
    simp only [List.cons_append, scrapeSources, List.append_eq]
    rw [ih]

theorem scrapeSources_fail_cons (embed : Article → Option Vec) (now : Int)
    (db : List Row) (s : Source) (post : List Source)
    (hfail : (scrape_feed embed now db s).2.2 = false) :
    scrapeSources embed now db (s :: post) =
      ((scrapeSources embed now (scrape_feed embed now db s).1 post).1,
       (s.1, 0) ::
         (scrapeSources embed now (scrape_feed embed now db s).1 post).2) := by
  simp only [scrapeSources]
  rw [hfail]
  simp

/-! ## Claim theorems -/

/-- C1: the content fingerprint at insert time is md5 of the naive
concatenation title ++ url ++ description (news_database.py line 134 of both
copies), so the two distinct triples (ab, c, d) and (a, bc, d), which differ
only in field boundary placement, produce the identical fingerprint input and
hence the identical md5 fingerprint, contradicting the claim; through the
content_hash UNIQUE constraint the second, genuinely different article is
then silently rejected as a duplicate, as the last two conjuncts evaluate. -/
theorem fingerprint_boundary_collision :
    content_for_hash ⟨"ab", "c", "d", "", none, "s", none⟩ =
      content_for_hash ⟨"a", "bc", "d", "", none, "s", none⟩ ∧
    (⟨"ab", "c", "d", "", none, "s", none⟩ : Article) ≠
      ⟨"a", "bc", "d", "", none, "s", none⟩ ∧
    add_article (fun _ => some [1]) []
      ⟨"ab", "c", "d", "", none, "s", none⟩ =
      some ([rowOf ⟨"ab", "c", "d", "", none, "s", none⟩ [1]], true) ∧
    add_article (fun _ => some [1])
      [rowOf ⟨"ab", "c", "d", "", none, "s", none⟩ [1]]
      ⟨"a", "bc", "d", "", none, "s", none⟩ =
      some ([rowOf ⟨"ab", "c", "d", "", none, "s", none⟩ [1]], false) := by
  decide

/-- C2: once an article was inserted (first call returned true), a second
add_article with the same url (any title or description) hits the url UNIQUE
constraint: it returns false instead of raising, the store is unchanged, and
exactly one stored row carries that url. -/
theorem add_article_same_url_duplicate (embed : Article → Option Vec)
    (db db1 : List Row) (a a1 : Article) (w : Vec)
    (hurl : a1.url = a.url)
    (hfirst : add_article embed db a = some (db1, true))
    (hembed : embed a1 = some w) :
    add_article embed db1 a1 = some (db1, false) ∧
    db1.countP (fun r => decide (r.url = a.url)) = 1 := by
  obtain ⟨v, hv, hnc, hdb1⟩ := add_article_true_elim hfirst
  have hmem : rowOf a v ∈ db1 := by
    rw [hdb1]
    exact List.mem_append_right _ (List.mem_cons_self _ _)
  have hconf : hasConflict db1 a1 = true := by
    rw [hasConflict_iff]
    exact ⟨rowOf a v, hmem, Or.inl hurl.symm⟩
  constructor
  · simp [add_article, hembed, hconf]
  · have h0 : db.countP (fun r => decide (r.url = a.url)) = 0 := by
      rw [List.countP_eq_zero]
      intro r hr
      by_contra hcon
      have : hasConflict db a = true :=
        (hasConflict_iff db a).mpr ⟨r, hr, Or.inl (by simpa using hcon)⟩
      rw [hnc] at this
      exact Bool.false_ne_true this
    rw [hdb1, List.countP_append, h0]
    simp [List.countP_cons, rowOf]

theorem add_article_same_url_duplicate_witness :
    ((⟨"T2", "http://u", "D2", "", some 6, "s", none⟩ : Article).url =
      (⟨"T1", "http://u", "D1", "", some 5, "s", none⟩ : Article).url) ∧
    add_article (fun _ => some [1]) []
      ⟨"T1", "http://u", "D1", "", some 5, "s", none⟩ =
      some ([rowOf ⟨"T1", "http://u", "D1", "", some 5, "s", none⟩ [1]], true) ∧
    (add_article (fun _ => some [1])
      [rowOf ⟨"T1", "http://u", "D1", "", some 5, "s", none⟩ [1]]
      ⟨"T2", "http://u", "D2", "", some 6, "s", none⟩ =
      some ([rowOf ⟨"T1", "http://u", "D1", "", some 5, "s", none⟩ [1]], false) ∧
    ([rowOf ⟨"T1", "http://u", "D1", "", some 5, "s", none⟩ [1]]).countP
      (fun r => decide (r.url =
        (⟨"T1", "http://u", "D1", "", some 5, "s", none⟩ : Article).url)) = 1) :=
  ⟨by decide, by decide,
   add_article_same_url_duplicate (fun _ => some [1]) []
     [rowOf ⟨"T1", "http://u", "D1", "", some 5, "s", none⟩ [1]]
     ⟨"T1", "http://u", "D1", "", some 5, "s", none⟩
     ⟨"T2", "http://u", "D2", "", some 6, "s", none⟩ [1]
     (by decide) (by decide) (by decide)⟩

/-- C3: on the second of two identical scrape_all_feeds runs every per-source
count is 0.  This holds degenerately: the NewsArticle constructor call in
_parse_entry omits the required content field, so no entry ever parses and
every run (first or second) records 0 for every source. -/
theorem scrape_twice_counts_zero (embed : Article → Option Vec) (now : Int)
    (db : List Row) (sources : List Source) :
    ∀ p ∈ (scrape_all_feeds embed now
        (scrape_all_feeds embed now db sources).1 sources).2, p.2 = 0 := by
  intro p hp
  unfold scrape_all_feeds at hp
  rw [scrapeSources_all_zero] at hp
  obtain ⟨s, _, heq⟩ := List.mem_map.mp hp
  rw [← heq]

theorem scrape_twice_counts_zero_witness :
    (("A", 0) ∈ (scrape_all_feeds (fun _ => some [1]) 1000000
      (scrape_all_feeds (fun _ => some [1]) 1000000 []
        [("A", Except.ok [⟨some "X", some "http://x", none, none,
          some 0, none, [], none⟩])]).1
      [("A", Except.ok [⟨some "X", some "http://x", none, none,
        some 0, none, [], none⟩])]).2) ∧
    (("A", 0) : String × Nat).2 = 0 :=
  ⟨by decide, scrape_twice_counts_zero (fun _ => some [1]) 1000000 []
    [("A", Except.ok [⟨some "X", some "http://x", none, none,
      some 0, none, [], none⟩])] ("A", 0) (by decide)⟩

/-- C4 counterexample: add_article generates the embedding with no local
handler (news_database.py lines 137-140), so when the embedder raises on this
article the exception propagates (result none) and no store containing the
item exists, refuting the claim that the item is persisted with a null
vector. -/
theorem embedding_failure_drops_item :
    add_article (fun a => if a.title = "B" then none else some [1]) []
      ⟨"B", "http://b", "", "", some 0, "S", none⟩ = none := by
  decide

/-- C4 amended: an embedding failure aborts add_article before the INSERT:
the call propagates the failure and the item is not persisted at all (with or
without a vector); inside a scrape it is the per-source handler of
scrape_all_feeds that catches it, recording 0 for the source and continuing
with the remaining sources. -/
theorem embedding_failure_aborts_insert (embed : Article → Option Vec)
    (db : List Row) (a : Article) (h : embed a = none) :
    add_article embed db a = none := by
  simp [add_article, h]

theorem embedding_failure_aborts_insert_witness :
    ((fun a : Article => if a.title = "B" then none else some ([1] : Vec))
      ⟨"B", "http://b", "", "", some 0, "S", none⟩ = none) ∧
    add_article (fun a : Article => if a.title = "B" then none else some [1])
      [] ⟨"B", "http://b", "", "", some 0, "S", none⟩ = none :=
  ⟨by decide, embedding_failure_aborts_insert _ [] _ (by decide)⟩

/-- C7: a failing source never aborts the run.  First conjunct: the returned
map has an entry for every configured source, in order.  Second conjunct: if
the scrape of source s (reached after the prefix pre) raised, then the whole
run equals the prefix results followed by the entry (s.1, 0) followed by the
results of processing every remaining source from the store s left behind:
the failed source records 0 and every remaining source is still processed. -/
theorem scrape_failure_isolation :
    (∀ (embed : Article → Option Vec) (now : Int) (db : List Row)
        (sources : List Source),
      ((scrape_all_feeds embed now db sources).2).map Prod.fst =
        sources.map Prod.fst) ∧
    (∀ (embed : Article → Option Vec) (now : Int) (db : List Row)
        (pre : List Source) (s : Source) (post : List Source),
      (scrape_feed embed now (scrapeSources embed now db pre).1 s).2.2 =
        false →
      scrapeSources embed now db (pre ++ s :: post) =
        ((scrapeSources embed now
            (scrape_feed embed now (scrapeSources embed now db pre).1 s).1
            post).1,
         (scrapeSources embed now db pre).2 ++
           (s.1, 0) :: (scrapeSources embed now
             (scrape_feed embed now (scrapeSources embed now db pre).1 s).1
             post).2)) := by
  constructor
  · intro embed now db sources
    unfold scrape_all_feeds
    exact scrapeSources_keys embed now sources _
  · intro embed now db pre s post hfail
    rw [scrapeSources_append embed now pre (s :: post) db,
      scrapeSources_fail_cons embed now _ s post hfail]

theorem scrape_failure_isolation_witness :
    ((scrape_feed (fun _ => some [1]) 0
        (scrapeSources (fun _ => some [1]) 0 [] []).1
        ("B", (Except.error () : Except Unit (List Entry)))).2.2 = false) ∧
    scrapeSources (fun _ => some [1]) 0 []
        ([] ++ ("B", (Except.error () : Except Unit (List Entry))) ::
          [("C", (Except.ok [] : Except Unit (List Entry)))]) =
      ((scrapeSources (fun _ => some [1]) 0
          (scrape_feed (fun _ => some [1]) 0
            (scrapeSources (fun _ => some [1]) 0 [] []).1
            ("B", (Except.error () : Except Unit (List Entry)))).1
          [("C", (Except.ok [] : Except Unit (List Entry)))]).1,
       (scrapeSources (fun _ => some [1]) 0 [] []).2 ++
         (("B", (Except.error () : Except Unit (List Entry))).1, 0) ::
           (scrapeSources (fun _ => some [1]) 0
             (scrape_feed (fun _ => some [1]) 0
               (scrapeSources (fun _ => some [1]) 0 [] []).1
               ("B", (Except.error () : Except Unit (List Entry)))).1
             [("C", (Except.ok [] : Except Unit (List Entry)))]).2) :=
  ⟨by decide, scrape_failure_isolation.2 (fun _ => some [1]) 0 [] []
    ("B", (Except.error () : Except Unit (List Entry)))
    [("C", (Except.ok [] : Except Unit (List Entry)))] (by decide)⟩

/-- C6: delete_old_articles keeps exactly the rows whose published date is
present and at least the cutoff (now minus the retention window): the removed
rows are exactly those strictly older than the cutoff together with every
null-dated row, the returned count plus the kept rows account for the whole
table, a row published exactly at the cutoff instant is retained, and a
null-dated row is always removed. -/
theorem delete_old_articles_boundary (now days : Int) (db : List Row) :
    (∀ r, r ∈ (delete_old_articles now days db).1 ↔
      r ∈ db ∧ ∃ d, r.published = some d ∧ now - days * 86400 ≤ d) ∧
    (delete_old_articles now days db).2 +
      (delete_old_articles now days db).1.length = db.length ∧
    (∀ r ∈ db, r.published = some (now - days * 86400) →
      r ∈ (delete_old_articles now days db).1) ∧
    (∀ r ∈ db, r.published = none →
      r ∉ (delete_old_articles now days db).1) := by
  have hmem : ∀ r, r ∈ (delete_old_articles now days db).1 ↔
      r ∈ db ∧ ∃ d, r.published = some d ∧ now - days * 86400 ≤ d := by
    intro r
    unfold delete_old_articles
    rw [List.mem_filter]
    constructor
    · rintro ⟨hr, hp⟩
      exact ⟨hr, (purgeable_eq_false_iff _ r).mp (by simpa using hp)⟩
    · rintro ⟨hr, hd⟩
      refine ⟨hr, ?_⟩
      have := (purgeable_eq_false_iff (now - days * 86400) r).mpr hd
      simp [this]
  refine ⟨hmem, ?_, ?_, ?_⟩
  · unfold delete_old_articles
    simpa using filter_split_length (purgeable (now - days * 86400)) db
  · intro r hr hp
    exact (hmem r).mpr ⟨hr, now - days * 86400, hp, le_refl _⟩
  · intro r hr hp hin
    obtain ⟨_, d, hd, _⟩ := (hmem r).mp hin
    rw [hp] at hd
    exact Option.noConfusion hd

theorem delete_old_articles_boundary_witness :
    (⟨"t", "u", "d", "", some 740800, "s", none, "h", none⟩ : Row) ∈
      (delete_old_articles 1000000 3
        [⟨"t", "u", "d", "", some 740800, "s", none, "h", none⟩]).1 :=
  (delete_old_articles_boundary 1000000 3
    [⟨"t", "u", "d", "", some 740800, "s", none, "h", none⟩]).2.2.1
    ⟨"t", "u", "d", "", some 740800, "s", none, "h", none⟩
    (by decide) (by decide)

/-- C10: the claim is that _parse_entry substitutes the current UTC time when
an entry has no parseable published or updated timestamp and hence always
produces an article with a non-null published date.  The code cannot do so:
the NewsArticle dataclass declares content as a field with no default, the
constructor call at lines 134-141 omits it, the generated init raises
TypeError, and the handler at line 143 returns None, so _parse_entry yields
no article for any entry whatsoever (first conjunct).  With the constructor
call repaired, the parser indeed never emits a null published date (second
conjunct), which is what the claim describes. -/
theorem parser_yields_nothing :
    (∀ (now : Int) (source : String) (e : Entry),
      parse_entry now source e = none) ∧
    (∀ (now : Int) (source : String) (e : Entry) (a : Article),
      parse_entry_fixed now source e = some a → ∃ t, a.published = some t) := by
  constructor
  · exact parse_entry_eq_none
  · intro now source e a h
    unfold parse_entry_fixed at h
    by_cases h1 : entryTitle e = ""
    · rw [if_pos h1] at h
      exact absurd h (by simp)
    · rw [if_neg h1] at h
      by_cases h2 : entryUrl e = ""
      · rw [if_pos h2] at h
        exact absurd h (by simp)
      · rw [if_neg h2] at h
        have ha := Option.some.inj h
        exact ⟨entryPublished now e, by rw [← ha]⟩

theorem parser_yields_nothing_witness :
    parse_entry 5 "S" ⟨some "X", some "http://x", none, none, some 7, none,
      [], none⟩ = none ∧
    ∃ t, (⟨"X", "http://x", "", "", some 7, "S", none⟩ : Article).published =
      some t :=
  ⟨parser_yields_nothing.1 5 "S" _,
   parser_yields_nothing.2 5 "S"
     ⟨some "X", some "http://x", none, none, some 7, none, [], none⟩
     ⟨"X", "http://x", "", "", some 7, "S", none⟩ (by decide)⟩

/-- C5: with at least one embedded preference, get_personalized_articles
scores every candidate of the embedded pool with the weighted similarity sum
over the embedded preferences, orders by score descending with ties broken
towards the more recent published date (the pool arrives date-descending and
the Python sort is stable), and truncates to the limit: the returned list is
the limit-prefix of an ordering of all scored candidates. -/
theorem personalized_ranking (sim : Vec → Vec → ℚ) (prefs : List Pref)
    (db : List Row) (limit : Nat) (h : embPrefs prefs ≠ []) :
    ∃ full : List (Row × ℚ),
      full.Perm (scoreCandidates sim (embPrefs prefs)
        (get_articles_with_embeddings db 200)) ∧
      full.Pairwise (fun p q => q.2 < p.2 ∨ (p.2 = q.2 ∧ rDate p.1 q.1)) ∧
      get_personalized_articles sim (some prefs) db limit = full.take limit ∧
      (∀ p ∈ full, p.1 ∈ get_articles_with_embeddings db 200 ∧
        ∃ v, p.1.embedding = some v ∧
          p.2 = score sim (embPrefs prefs) v) := by
  refine ⟨List.insertionSort rScore (scoreCandidates sim (embPrefs prefs)
    (get_articles_with_embeddings db 200)),
    List.perm_insertionSort _ _, ?_, ?_, ?_⟩
  · have hpool : (get_articles_with_embeddings db 200).Pairwise rDate :=
      List.Pairwise.sublist (List.take_sublist _ _)
        (pairwise_insertionSort rDate_total rDate_trans _)
    have hscored : (scoreCandidates sim (embPrefs prefs)
        (get_articles_with_embeddings db 200)).Pairwise
        (fun p q => rDate p.1 q.1) := by
      unfold scoreCandidates
      rw [List.pairwise_filterMap]
      refine hpool.imp ?_
      intro r1 r2 h12 x hx y hy
      obtain ⟨v1, _, hx2⟩ := Option.map_eq_some'.mp hx
      obtain ⟨v2, _, hy2⟩ := Option.map_eq_some'.mp hy
      rw [← hx2, ← hy2]
      exact h12
    have hstable := pairwise_insertionSort_stable rScore_total rScore_trans
      _ hscored
    refine hstable.imp ?_
    intro p q hpq
    obtain ⟨h1, h2⟩ := hpq
    rcases lt_or_eq_of_le h1 with hlt | heqq
    · exact Or.inl hlt
    · exact Or.inr ⟨heqq.symm, h2 (le_of_eq heqq.symm)⟩
  · simp only [get_personalized_articles]
    rw [if_neg h]
  · intro p hp
    have hp2 : p ∈ scoreCandidates sim (embPrefs prefs)
        (get_articles_with_embeddings db 200) :=
      (List.perm_insertionSort _ _).mem_iff.mp hp
    unfold scoreCandidates at hp2
    obtain ⟨r, hr, hf⟩ := List.mem_filterMap.mp hp2
    obtain ⟨v, hv, heq⟩ := Option.map_eq_some'.mp hf
    refine ⟨by rw [← heq]; exact hr, v, by rw [← heq]; exact hv, by rw [← heq]⟩

theorem personalized_ranking_witness :
    (embPrefs [⟨"p", 2, some [1]⟩] ≠ []) ∧
    ∃ full : List (Row × ℚ),
      full.Perm (scoreCandidates (fun v w => if v = w then (1 : ℚ) else 0)
        (embPrefs [⟨"p", 2, some [1]⟩])
        (get_articles_with_embeddings
          [⟨"A", "http://a", "", "", some 5, "s", none, "h1", some [1]⟩,
           ⟨"B", "http://b", "", "", some 9, "s", none, "h2", some [2]⟩] 200)) ∧
      full.Pairwise (fun p q => q.2 < p.2 ∨ (p.2 = q.2 ∧ rDate p.1 q.1)) ∧
      get_personalized_articles (fun v w => if v = w then (1 : ℚ) else 0)
        (some [⟨"p", 2, some [1]⟩])
        [⟨"A", "http://a", "", "", some 5, "s", none, "h1", some [1]⟩,
         ⟨"B", "http://b", "", "", some 9, "s", none, "h2", some [2]⟩] 2 =
        full.take 2 ∧
      (∀ p ∈ full, p.1 ∈ get_articles_with_embeddings
          [⟨"A", "http://a", "", "", some 5, "s", none, "h1", some [1]⟩,
           ⟨"B", "http://b", "", "", some 9, "s", none, "h2", some [2]⟩] 200 ∧
        ∃ v, p.1.embedding = some v ∧
          p.2 = score (fun v w => if v = w then (1 : ℚ) else 0)
            (embPrefs [⟨"p", 2, some [1]⟩]) v) :=
  ⟨by decide, personalized_ranking (fun v w => if v = w then (1 : ℚ) else 0)
    [⟨"p", 2, some [1]⟩]
    [⟨"A", "http://a", "", "", some 5, "s", none, "h1", some [1]⟩,
     ⟨"B", "http://b", "", "", some 9, "s", none, "h2", some [2]⟩] 2
    (by decide)⟩

/-- C8: for a missing user or a user with no embedded preference,
get_personalized_articles falls back to the latest articles with score 0.0
attached: the result is a date-descending prefix of an arrangement of the
whole table, every attached score is 0, and no error is raised (the function
is total). -/
theorem personalized_fallback (sim : Vec → Vec → ℚ) (user : Option (List Pref))
    (db : List Row) (limit : Nat)
    (h : ∀ ps, user = some ps → embPrefs ps = []) :
    (∃ full : List Row, full.Perm db ∧ full.Pairwise rDate ∧
      get_personalized_articles sim user db limit =
        (full.take limit).map fun r => (r, (0 : ℚ))) ∧
    (∀ p ∈ get_personalized_articles sim user db limit, p.2 = 0) ∧
    (get_personalized_articles sim user db limit).Pairwise
      (fun p q => rDate p.1 q.1) := by
  have hfall : get_personalized_articles sim user db limit =
      ((List.insertionSort rDate db).take limit).map fun r => (r, (0 : ℚ)) := by
    cases user with
    | none => rfl
    | some ps =>
      have hemp := h ps rfl
      simp [get_personalized_articles, hemp, get_latest_articles]
  have hsorted := pairwise_insertionSort rDate_total rDate_trans db
  refine ⟨⟨List.insertionSort rDate db, List.perm_insertionSort rDate db,
    hsorted, hfall⟩, ?_, ?_⟩
  · intro p hp
    rw [hfall] at hp
    obtain ⟨r, _, heq⟩ := List.mem_map.mp hp
    rw [← heq]
  · rw [hfall, List.pairwise_map]
    exact List.Pairwise.sublist (List.take_sublist _ _) hsorted

theorem personalized_fallback_witness :
    (∀ ps, (none : Option (List Pref)) = some ps → embPrefs ps = []) ∧
    ((∃ full : List Row,
      full.Perm [⟨"A", "http://a", "", "", some 5, "s", none, "h1", none⟩,
        ⟨"B", "http://b", "", "", some 9, "s", none, "h2", none⟩] ∧
      full.Pairwise rDate ∧
      get_personalized_articles (fun _ _ => (0 : ℚ)) none
        [⟨"A", "http://a", "", "", some 5, "s", none, "h1", none⟩,
         ⟨"B", "http://b", "", "", some 9, "s", none, "h2", none⟩] 1 =
        (full.take 1).map fun r => (r, (0 : ℚ))) ∧
    (∀ p ∈ get_personalized_articles (fun _ _ => (0 : ℚ)) none
        [⟨"A", "http://a", "", "", some 5, "s", none, "h1", none⟩,
         ⟨"B", "http://b", "", "", some 9, "s", none, "h2", none⟩] 1,
      p.2 = 0) ∧
    (get_personalized_articles (fun _ _ => (0 : ℚ)) none
        [⟨"A", "http://a", "", "", some 5, "s", none, "h1", none⟩,
         ⟨"B", "http://b", "", "", some 9, "s", none, "h2", none⟩] 1).Pairwise
      (fun p q => rDate p.1 q.1)) :=
  ⟨fun _ h => Option.noConfusion h,
   personalized_fallback (fun _ _ => (0 : ℚ)) none
     [⟨"A", "http://a", "", "", some 5, "s", none, "h1", none⟩,
      ⟨"B", "http://b", "", "", some 9, "s", none, "h2", none⟩] 1
     (fun _ h => Option.noConfusion h)⟩

/-- C9: calculate_similarity (cosine similarity as sklearn computes it, with
zero norms replaced by one before dividing) stays in the closed interval from
-1 to 1 for vectors of equal dimension, equals 1 on any nonzero vector paired
with itself, and equals 0 whenever either argument is the zero vector, the
division never being by zero. -/
theorem calculate_similarity_bounds :
    ∀ a b v : List ℝ, a.length = b.length →
      (-1 ≤ calculate_similarity a b ∧ calculate_similarity a b ≤ 1) ∧
      ((∃ x ∈ v, x ≠ 0) → calculate_similarity v v = 1) ∧
      ((∀ x ∈ a, x = 0) →
        calculate_similarity a b = 0 ∧ calculate_similarity b a = 0) := by
  intro a b v _
  refine ⟨abs_le.mp (abs_similarity_le_one a b), ?_, ?_⟩
  · rintro ⟨x, hx, hx0⟩
    apply similarity_self
    obtain ⟨i, hi, hg⟩ := List.mem_iff_getElem.mp hx
    have hpos : 0 < dotR v v := by
      rw [dotR_eq_sum, min_self]
      refine Finset.sum_pos' (fun j _ => mul_self_nonneg _) ?_
      refine ⟨i, Finset.mem_range.mpr hi, ?_⟩
      have hvi : v.getD i 0 = x := by
        rw [List.getD_eq_getElem v 0 hi]
        exact hg
      rw [hvi]
      exact mul_self_pos.mpr hx0
    exact ne_of_gt hpos
  · intro hz
    have hza : ∀ i < a.length, a.getD i 0 = 0 := by
      intro i hi
      apply hz
      rw [List.getD_eq_getElem a 0 hi]
      exact List.getElem_mem _
    constructor
    · unfold calculate_similarity
      rw [dotR_eq_zero_of_left hza b, zero_div]
    · unfold calculate_similarity
      rw [dotR_eq_zero_of_right hza b, zero_div]

theorem calculate_similarity_bounds_witness :
    (([(1 : ℝ), 0] : List ℝ).length = ([0, 1] : List ℝ).length) ∧
    ((-1 ≤ calculate_similarity [(1 : ℝ), 0] [0, 1] ∧
      calculate_similarity [(1 : ℝ), 0] [0, 1] ≤ 1) ∧
    ((∃ x ∈ [(2 : ℝ)], x ≠ 0) →
      calculate_similarity [(2 : ℝ)] [(2 : ℝ)] = 1) ∧
    ((∀ x ∈ [(1 : ℝ), 0], x = 0) →
      calculate_similarity [(1 : ℝ), 0] [0, 1] = 0 ∧
      calculate_similarity [0, 1] [(1 : ℝ), 0] = 0)) :=
  ⟨rfl, calculate_similarity_bounds [1, 0] [0, 1] [2] rfl⟩

end NewsTracker
